import Mathlib

/-!
# Verification of the One Pace transcoding pipeline

Shallow embedding of `dist/transcode.py`: the sidecar (`.nfo`) metadata
parser, the supplementary-metadata resolver, the artwork resolver, the
ffmpeg command builder, the per-file orchestrator `transcode_file`, and the
directory scanner `scan_directory`.

Modelling conventions:
* Text is modelled as `String` (a wrapper around `List Char`); the helper
  operations mirror the exact CPython semantics used by the script
  (`str.strip`, `pathlib.PurePath.suffix`, `pathlib.PurePath.with_suffix`,
  `int(...)` on plain ASCII decimal literals, and the one regular
  expression the script uses).  Unicode-only niceties of CPython (unicode
  whitespace categories, non-ASCII digits, underscore digit separators)
  do not occur in this repository's data and are outside the model.
* The filesystem is an association list from paths to file contents; a
  file's content is either a well-formed XML document (reduced to the root
  element's direct children, which is all `ElementTree.find` on a tag name
  inspects here) or an unparseable blob.
* Python exceptions are modelled with `Except`; the `logging` calls and
  the filesystem mutations performed by the orchestrator are returned as
  explicit event lists.
* Directory enumeration (`Path.rglob`) is modelled as a snapshot of the
  filesystem taken when each of the two scan loops starts, in filesystem
  order: the spec only promises an unspecified but deterministic-per-run
  order.
-/

namespace OnePace

/-! ## Character and string helpers (CPython semantics) -/

/-- ASCII whitespace recognised by `str.strip()` and by the regex class
`\s` (space, tab, newline, carriage return, vertical tab, form feed). -/
def isPySpace (c : Char) : Bool :=
  c == ' ' || c == '\t' || c == '\n' || c == '\r' || c == '\x0b' || c == '\x0c'

/-- `str.strip()`: drop leading and trailing whitespace. -/
def pyStrip (l : List Char) : List Char :=
  ((l.dropWhile isPySpace).reverse.dropWhile isPySpace).reverse

/-- `pathlib.PurePath.suffix` of a file name: the part from the last dot,
provided that dot is neither the first nor the last character; otherwise
the empty string. -/
def pySuffix (l : List Char) : List Char :=
  let a := l.reverse.takeWhile (fun c => c != '.')
  if 0 < a.length ∧ a.length < l.length - 1 then '.' :: a.reverse else []

/-- `title.split(".", 1)[1]`: everything after the first dot.  Only used
by the source under the guard `"." in title`. -/
def afterFirstDot (l : List Char) : List Char :=
  (l.dropWhile (fun c => c != '.')).drop 1

/-- Leftmost-occurrence search: `searchAfter pat s` returns the remainder
of `s` after the first occurrence of the contiguous pattern `pat`, as
`re.search` does for a literal pattern. -/
def searchAfter (pat : List Char) : List Char → Option (List Char)
  | [] => if pat.isPrefixOf ([] : List Char) then some [] else none
  | c :: rest =>
    if pat.isPrefixOf (c :: rest) then some ((c :: rest).drop pat.length)
    else searchAfter pat rest

/-- The literal part of the regex `Anime Episode\(s\):\s*(.*)`. -/
def animeLabel : List Char := "Anime Episode(s):".data

/-- `re.search(r"Anime Episode\(s\):\s*(.*)", plot)` followed by
`.group(1).strip()`: after the first occurrence of the literal label, the
greedy `\s*` consumes the maximal whitespace run, `(.*)` captures up to
the next newline (Python's `.` does not match `\n`), and the capture is
stripped. -/
def extractOriginalEpisode (plot : List Char) : Option (List Char) :=
  match searchAfter animeLabel plot with
  | none => none
  | some rest =>
    some (pyStrip ((rest.dropWhile isPySpace).takeWhile (fun c => c != '\n')))

/-- Numeric value of an ASCII digit. -/
def digitVal (c : Char) : Nat := c.toNat - '0'.toNat

/-- Decimal reading of a digit string. -/
def digitsToNat (l : List Char) : Nat :=
  l.foldl (fun acc c => acc * 10 + digitVal c) 0

/-- `int(s)` on an ASCII decimal literal: surrounding whitespace is
allowed, then an optional sign and a nonempty digit run; anything else
raises `ValueError` (modelled as `none`). -/
def pyInt (s : String) : Option Int :=
  let t := pyStrip s.data
  match t with
  | '+' :: ds =>
    if !ds.isEmpty && ds.all Char.isDigit then some (Int.ofNat (digitsToNat ds)) else none
  | '-' :: ds =>
    if !ds.isEmpty && ds.all Char.isDigit then some (-(Int.ofNat (digitsToNat ds))) else none
  | ds =>
    if !ds.isEmpty && ds.all Char.isDigit then some (Int.ofNat (digitsToNat ds)) else none

/-- Python's `f"{n:02d}"`: zero-pad to width two (the sign counts toward
the width). -/
def fmt02d (n : Int) : String :=
  if 0 ≤ n ∧ n < 10 then "0" ++ toString n else toString n

/-! ## Paths and the filesystem -/

/-- A relative filesystem path: directory components plus a file name. -/
structure FsPath where
  parent : List String
  name : String
deriving DecidableEq, Repr

/-- `PurePath.with_suffix`: replace the `pySuffix` of the name, or append
the new suffix if the name has none. -/
def withSuffix (p : FsPath) (suf : String) : FsPath :=
  let old := pySuffix p.name.data
  if old = [] then ⟨p.parent, p.name ++ suf⟩
  else ⟨p.parent, String.mk (p.name.data.take (p.name.data.length - old.length) ++ suf.data)⟩

/-- `str(path)` with POSIX separators. -/
def strPath (p : FsPath) : String :=
  String.intercalate "/" (p.parent ++ [p.name])

/-- An XML child element of the root: a tag and its text content
(`None` when the element is empty, as in `ElementTree`). -/
structure XmlElem where
  tag : String
  text : Option String
deriving DecidableEq, Repr

/-- A well-formed XML document, reduced to the root's direct children
(all that `root.find(tag)` inspects for the plain tag names used here). -/
structure XmlDoc where
  children : List XmlElem
deriving DecidableEq, Repr

/-- `root.find(tag)`: first direct child carrying the tag. -/
def findTag (doc : XmlDoc) (tag : String) : Option XmlElem :=
  doc.children.find? (fun el => decide (el.tag = tag))

/-- Content of a file on disk: either well-formed XML, or a blob on which
`ElementTree.parse` raises `ParseError` (media files, malformed markup). -/
inductive FileContent
  | xml (doc : XmlDoc)
  | notXml
deriving DecidableEq, Repr

/-- The filesystem under the scanned root, in enumeration order. -/
abbrev FS := List (FsPath × FileContent)

def fsLookup (fs : FS) (p : FsPath) : Option FileContent :=
  (fs.find? (fun e => decide (e.1 = p))).map Prod.snd

/-- `path.exists()`. -/
def fsExists (fs : FS) (p : FsPath) : Bool :=
  (fsLookup fs p).isSome

/-- `path.unlink()` (on an association list with unique keys). -/
def fsErase (fs : FS) (p : FsPath) : FS :=
  fs.filter (fun e => decide (e.1 ≠ p))

/-- Create or overwrite a file. -/
def fsInsert (fs : FS) (p : FsPath) (c : FileContent) : FS :=
  if fsExists fs p then fs.map (fun e => if e.1 = p then (p, c) else e)
  else fs ++ [(p, c)]

/-- `src.rename(dst)`. -/
def fsRename (fs : FS) (src dst : FsPath) : FS :=
  match fsLookup fs src with
  | some c => fsInsert (fsErase fs src) dst c
  | none => fs

/-! ## Errors, logging and effects -/

/-- Exceptions that can escape the modelled code. -/
inductive PyErr
  | parseError
  | fileNotFound
  | indexError
deriving DecidableEq, Repr

/-- Log records emitted by the script. -/
inductive LogEntry
  | warnMissingNfo (media : FsPath)
  | warnBadNfo (nfo : FsPath)
  | infoDryRun (cmd : List String)
  | infoRunning (cmd : List String)
  | errorFfmpeg (media : FsPath)
deriving DecidableEq, Repr

/-- Externally visible effects of the orchestrator. -/
inductive Action
  | exec (cmd : List String)
  | unlink (p : FsPath)
  | rename (src dst : FsPath)
deriving DecidableEq, Repr

/-! ## The description parser (`parse_nfo`) -/

/-- The four recognised fields, in the order the source iterates them. -/
def recognizedTags : List String := ["title", "showtitle", "season", "episode"]

/-- `parse_nfo` on a parsed document: keep each recognised tag whose
element is present with truthy (nonempty) text, in iteration order. -/
def parse_nfo (doc : XmlDoc) : List (String × String) :=
  recognizedTags.filterMap (fun tag =>
    match findTag doc tag with
    | some el =>
      match el.text with
      | some t => if t = "" then none else some (tag, t)
      | none => none
    | none => none)

/-- `parse_nfo` on a path: `ET.parse` raises `ParseError` on content that
is not well-formed markup and `FileNotFoundError` on a missing file;
neither is caught in `parse_nfo`. -/
def parseNfoFile (fs : FS) (p : FsPath) : Except PyErr (List (String × String)) :=
  match fsLookup fs p with
  | some (.xml doc) => .ok (parse_nfo doc)
  | some .notXml => .error .parseError
  | none => .error .fileNotFound

/-! ## The supplementary metadata resolver (`parse_additional_metadata`) -/

/-- Dictionary lookup on an association list (first binding wins, as in a
Python `dict` whose keys are unique). -/
def lookupKey (k : String) : List (String × String) → Option String
  | [] => none
  | (k1, v) :: rest => if k1 = k then some v else lookupKey k rest

/-- The `original_episode` entry extracted from the `plot` element. -/
def plotExtras (doc : XmlDoc) : List (String × String) :=
  match findTag doc "plot" with
  | some el =>
    match el.text with
    | some t =>
      if t = "" then []
      else
        match extractOriginalEpisode t.data with
        | some v => [("original_episode", String.mk v)]
        | none => []
    | none => []
  | none => []

/-- The `onepace_arc` entry extracted from a sibling `season.nfo`: when it
exists and parses and its `title` element has truthy text, keep the text
after the first dot (when a dot is present), stripped; a missing file, a
`ParseError` (caught by the inner `try`) or a missing/empty title yield
nothing. -/
def seasonExtras (fs : FS) (media : FsPath) : List (String × String) :=
  let season_nfo : FsPath := ⟨media.parent, "season.nfo"⟩
  match fsLookup fs season_nfo with
  | some (.xml sdoc) =>
    match findTag sdoc "title" with
    | some el =>
      match el.text with
      | some t =>
        if t = "" then []
        else
          let core := if t.data.contains '.' then afterFirstDot t.data else t.data
          [("onepace_arc", String.mk (pyStrip core))]
      | none => []
    | none => []
  | some .notXml => []
  | none => []

/-- `parse_additional_metadata(nfo_path, media_path)`: re-parse the
primary sidecar, absorbing `ParseError` into a warning plus an empty
result (a missing file would raise `FileNotFoundError`, which the
`except ET.ParseError` clause does not catch); otherwise collect the
`original_episode` and `onepace_arc` extras in insertion order. -/
def parse_additional_metadata (fs : FS) (nfo_path media_path : FsPath) :
    Except PyErr (List (String × String) × List LogEntry) :=
  match fsLookup fs nfo_path with
  | some (.xml doc) => .ok (plotExtras doc ++ seasonExtras fs media_path, [])
  | some .notXml => .ok ([], [.warnBadNfo nfo_path])
  | none => .error .fileNotFound

/-- `dict.update`: existing keys are overwritten in place, new keys are
appended in the update's order. -/
def dictUpdate (d e : List (String × String)) : List (String × String) :=
  d.map (fun p =>
    match lookupKey p.1 e with
    | some v => (p.1, v)
    | none => p)
  ++ e.filter (fun p => (lookupKey p.1 d).isNone)

/-! ## Artwork resolver and command builder (`transcode_file` body) -/

/-- The fixed ffmpeg key remapping applied to each metadata key:
`{"showtitle": "show", "episode": "episode_id"}.get(key, key)`. -/
def ffkey (k : String) : String :=
  if k = "showtitle" then "show" else if k = "episode" then "episode_id" else k

/-- The second element of one `-metadata` flag pair: `f"{ffkey}={value}"`. -/
def metaArg (k v : String) : String := ffkey k ++ "=" ++ v

/-- The `-metadata` section of the command, one flag pair per entry of the
merged metadata map, in map order. -/
def metaArgs (meta : List (String × String)) : List String :=
  meta.flatMap (fun p => ["-metadata", metaArg p.1 p.2])

/-- Artwork resolution (lines 103-112): only under `embed_artwork` with a
`season` key; `int(...)` failure (`ValueError`) is caught and means no
poster; `media_path.parents[1]` raises `IndexError` when the media path
has no directory components; otherwise probe
`parents[1]/f"season{n:02d}-poster.png"`. -/
def resolvePoster (fs : FS) (media : FsPath) (embed_artwork : Bool)
    (meta : List (String × String)) : Except PyErr (Option FsPath) :=
  if embed_artwork then
    match lookupKey "season" meta with
    | none => .ok none
    | some s =>
      match pyInt s with
      | none => .ok none
      | some n =>
        match media.parent with
        | [] => .error .indexError
        | ds =>
          let candidate : FsPath := ⟨ds.dropLast, "season" ++ fmt02d n ++ "-poster.png"⟩
          .ok (if fsExists fs candidate then some candidate else none)
  else .ok none

/-- The ffmpeg argument list (lines 114-131). -/
def buildCmd (media : FsPath) (poster : Option FsPath)
    (meta : List (String × String)) (output : FsPath) : List String :=
  ["ffmpeg", "-i", strPath media]
  ++ (match poster with | some p => ["-i", strPath p] | none => [])
  ++ ["-c:v", "libx265", "-c:a", "copy"]
  ++ (match poster with
      | some _ => ["-map", "0", "-map", "1", "-disposition:v:1", "attached_pic"]
      | none => [])
  ++ metaArgs meta
  ++ [strPath output]

/-! ## The per-file orchestrator (`transcode_file`) -/

/-- Result of one completed `transcode_file` call. -/
structure FileOutcome where
  log : List LogEntry
  actions : List Action
  fs : FS
deriving DecidableEq, Repr

/-- `transcode_file(media_path, replace, dry_run, embed_artwork)`.  The
external engine is a parameter `exitOf` mapping the argument list to the
subprocess exit code; on exit 0 the engine has written the output file.
`subprocess.run(cmd, check=True)` raises `CalledProcessError` on a
nonzero exit, which the source catches, logs and returns on. -/
def transcode_file (exitOf : List String → Nat) (fs : FS) (media : FsPath)
    (replace dry_run embed_artwork : Bool) : Except PyErr FileOutcome :=
  let nfo_path := withSuffix media ".nfo"
  if fsExists fs nfo_path then
    match parseNfoFile fs nfo_path with
    | .error e => .error e
    | .ok meta0 =>
      match parse_additional_metadata fs nfo_path media with
      | .error e => .error e
      | .ok (extras, wlog) =>
        let meta := dictUpdate meta0 extras
        let output_path := withSuffix media ".mp4"
        match resolvePoster fs media embed_artwork meta with
        | .error e => .error e
        | .ok poster =>
          let cmd := buildCmd media poster meta output_path
          if dry_run then
            .ok ⟨wlog ++ [.infoDryRun cmd], [], fs⟩
          else if exitOf cmd = 0 then
            let fs1 := fsInsert fs output_path .notXml
            if replace ∧ pySuffix media.name.data ≠ ".mp4".data then
              .ok ⟨wlog ++ [.infoRunning cmd],
                   [.exec cmd, .unlink media, .rename output_path media],
                   fsRename (fsErase fs1 media) output_path media⟩
            else
              .ok ⟨wlog ++ [.infoRunning cmd], [.exec cmd], fs1⟩
          else
            .ok ⟨wlog ++ [.infoRunning cmd, .errorFfmpeg media], [.exec cmd], fs⟩
  else
    .ok ⟨[.warnMissingNfo media], [], fs⟩

/-! ## The directory scanner (`scan_directory`) -/

/-- Cumulative outcome of (part of) a scan.  `processed` lists the media
paths handed to `transcode_file`; `err` is the uncaught exception that
aborted the scan, if any. -/
structure ScanOutcome where
  fs : FS
  log : List LogEntry
  actions : List Action
  processed : List FsPath
  err : Option PyErr
deriving DecidableEq, Repr

/-- Drive `transcode_file` over a list of media paths, threading the
filesystem; an uncaught exception stops the loop (there is no handler in
`scan_directory`). -/
def runFiles (exitOf : List String → Nat) (replace dry_run embed_artwork : Bool) :
    List FsPath → FS → ScanOutcome
  | [], fs => ⟨fs, [], [], [], none⟩
  | p :: ps, fs =>
    match transcode_file exitOf fs p replace dry_run embed_artwork with
    | .error e => ⟨fs, [], [], [p], some e⟩
    | .ok out =>
      let rest := runFiles exitOf replace dry_run embed_artwork ps out.fs
      ⟨rest.fs, out.log ++ rest.log, out.actions ++ rest.actions,
       p :: rest.processed, rest.err⟩

/-- `fnmatch` of the glob `*<ext>` against a file name: the name ends with
the extension text. -/
def rglobMatches (ext : String) (p : FsPath) : Bool :=
  ext.data.isSuffixOf p.name.data

/-- The files yielded by `directory.rglob("*.mkv")`, in filesystem order. -/
def mkvTargets (fs : FS) : List FsPath :=
  (fs.map Prod.fst).filter (rglobMatches ".mkv")

/-- The files of the second loop that survive the
`if file.suffix == MP4_EXT: continue` guard: matched by
`rglob("*.mp4")` yet with a `pathlib` suffix other than `.mp4`. -/
def mp4Targets (fs : FS) : List FsPath :=
  (fs.map Prod.fst).filter
    (fun p => rglobMatches ".mp4" p && !(pySuffix p.name.data == ".mp4".data))

/-- The first loop of `scan_directory`. -/
def scanFirst (exitOf : List String → Nat) (fs : FS)
    (replace dry_run embed_artwork : Bool) : ScanOutcome :=
  runFiles exitOf replace dry_run embed_artwork (mkvTargets fs) fs

/-- `scan_directory(directory, replace, dry_run, embed_artwork)`: the
`*.mkv` loop, then (when no exception aborted it) the `*.mp4` loop over
the filesystem as the first loop left it. -/
def scan_directory (exitOf : List String → Nat) (fs : FS)
    (replace dry_run embed_artwork : Bool) : ScanOutcome :=
  let o1 := scanFirst exitOf fs replace dry_run embed_artwork
  match o1.err with
  | some _ => o1
  | none =>
    let o2 := runFiles exitOf replace dry_run embed_artwork (mp4Targets o1.fs) o1.fs
    ⟨o2.fs, o1.log ++ o2.log, o1.actions ++ o2.actions,
     o1.processed ++ o2.processed, o2.err⟩

/-! ## Auxiliary definitions used by the statements -/

/-- Number of occurrences of an argument in an argument list. -/
def countArg (x : String) : List String → Nat
  | [] => 0
  | y :: l => (if y = x then 1 else 0) + countArg x l

/-- Every key that can occur in the merged metadata map of this script:
the four recognised sidecar tags plus the two supplementary keys. -/
def allowedMetaKeys : List String :=
  ["title", "showtitle", "season", "episode", "original_episode", "onepace_arc"]

/-- Modelled from the spec: the field-name remapping table as the spec
states it — `showtitle → show`, `episode → episode_id`, every other key
verbatim.  Stated separately from `ffkey` (which is read off the source's
dictionary `get`) so that the command builder can be checked against the
spec's table. -/
def specRemap (k : String) : String :=
  if k = "showtitle" then "show" else if k = "episode" then "episode_id" else k

/-! ## Helper lemmas on the text primitives -/

theorem isPrefixOf_iff_ex (p s : List Char) :
    p.isPrefixOf s = true ↔ ∃ t, s = p ++ t := by
  induction p generalizing s with
  | nil => simp [List.isPrefixOf]
  | cons a as ih =>
    cases s with
    | nil => simp [List.isPrefixOf]
    | cons b bs =>
      simp only [List.isPrefixOf, Bool.and_eq_true, beq_iff_eq, ih, List.cons_append,
        List.cons.injEq]
      constructor
      · rintro ⟨rfl, t, rfl⟩; exact ⟨t, rfl, rfl⟩
      · rintro ⟨t, rfl, rfl⟩; exact ⟨rfl, t, rfl⟩

theorem searchAfter_isSome_iff (pat s : List Char) :
    (searchAfter pat s).isSome = true ↔ ∃ u w, s = u ++ pat ++ w := by
  induction s with
  | nil =>
    cases pat with
    | nil => simp [searchAfter, List.isPrefixOf]
    | cons a as =>
      simp only [searchAfter, List.isPrefixOf]
      constructor
      · intro h; simp at h
      · rintro ⟨u, w, h⟩
        exact absurd (congrArg List.length h) (by simp; omega)
  | cons c rest ih =>
    rw [searchAfter]
    by_cases hp : pat.isPrefixOf (c :: rest) = true
    · rw [if_pos hp]
      obtain ⟨t, ht⟩ := (isPrefixOf_iff_ex pat (c :: rest)).mp hp
      simp only [Option.isSome_some, true_iff]
      exact ⟨[], t, by simpa using ht⟩
    · rw [if_neg hp, ih]
      constructor
      · rintro ⟨u, w, rfl⟩; exact ⟨c :: u, w, rfl⟩
      · rintro ⟨u, w, h⟩
        cases u with
        | nil =>
          exact absurd ((isPrefixOf_iff_ex pat (c :: rest)).mpr ⟨w, by simpa using h⟩) hp
        | cons u0 u' =>
          rw [List.cons_append, List.cons_append] at h
          injection h with h1 h2
          exact ⟨u', w, h2⟩

theorem dropWhile_head_false {α : Type} (p : α → Bool) (l : List α) (c : α) (d : List α)
    (h : l.dropWhile p = c :: d) : p c = false := by
  induction l with
  | nil => simp [List.dropWhile] at h
  | cons a t ih =>
    rw [List.dropWhile_cons] at h
    by_cases hp : p a = true
    · rw [if_pos hp] at h; exact ih h
    · rw [if_neg hp] at h
      injection h with h1 _
      subst h1
      exact Bool.not_eq_true _ ▸ hp

theorem pySuffix_decomp (l : List Char) (h : pySuffix l ≠ []) :
    l.take (l.length - (pySuffix l).length) ++ pySuffix l = l := by
  unfold pySuffix at h ⊢
  by_cases hc : 0 < (l.reverse.takeWhile (fun c => c != '.')).length ∧
      (l.reverse.takeWhile (fun c => c != '.')).length < l.length - 1
  · rw [if_pos hc] at h ⊢
    obtain ⟨hc1, hc2⟩ := hc
    set a := l.reverse.takeWhile (fun c => c != '.') with ha
    set d := l.reverse.dropWhile (fun c => c != '.') with hd
    have hsplit : a ++ d = l.reverse := by
      rw [ha, hd]; exact List.takeWhile_append_dropWhile _ _
    have hlen : a.length + d.length = l.length := by
      have := congrArg List.length hsplit
      simpa using this
    obtain ⟨c, d', hcd⟩ : ∃ c d', d = c :: d' := by
      cases hdd : d with
      | nil =>
        rw [hdd] at hlen
        simp at hlen
        omega
      | cons x xs => exact ⟨x, xs, rfl⟩
    have hcdot : c = '.' := by
      have hf2 : (c != '.') = false := by
        have := dropWhile_head_false (fun c => c != '.') l.reverse c d' (by rw [← hd, hcd])
        simpa using this
      simpa using hf2
    have hl : l = d'.reverse ++ '.' :: a.reverse := by
      have hll : l = (a ++ d).reverse := by rw [hsplit, List.reverse_reverse]
      rw [hll, hcd, hcdot]
      simp
    have hlen2 : l.length - ('.' :: a.reverse).length = d'.reverse.length := by
      rw [hcd] at hlen
      simp at hlen ⊢
      omega
    rw [hlen2, hl, List.take_left]
  · rw [if_neg hc] at h
    exact absurd rfl h

theorem withSuffix_self_of_mp4 (p : FsPath) (h : pySuffix p.name.data = ".mp4".data) :
    withSuffix p ".mp4" = p := by
  have hd := pySuffix_decomp p.name.data (by rw [h]; decide)
  rw [h] at hd
  unfold withSuffix
  rw [h, if_neg (by decide)]
  obtain ⟨par, nm⟩ := p
  obtain ⟨nd⟩ := nm
  simp only at hd ⊢
  congr 1
  exact congrArg String.mk hd

theorem pySuffix_cons_append_mp4 (c : Char) (pre : List Char) :
    pySuffix ((c :: pre) ++ ".mp4".data) = ".mp4".data := by
  unfold pySuffix
  have h1 : ((c :: pre) ++ ".mp4".data).reverse = '4' :: 'p' :: 'm' :: '.' :: (c :: pre).reverse := by
    simp [String.data]
  rw [h1]
  have h2 : List.takeWhile (fun c => c != '.') ('4' :: 'p' :: 'm' :: '.' :: (c :: pre).reverse)
      = ['4', 'p', 'm'] := rfl
  rw [h2]
  rw [if_pos (by simp only [List.length_cons, List.length_append]; omega)]
  rfl

theorem mp4_survivor_iff (n : List Char) :
    ((".mp4".data.isSuffixOf n) && !(pySuffix n == ".mp4".data)) = true ↔ n = ".mp4".data := by
  constructor
  · intro h
    rw [Bool.and_eq_true] at h
    obtain ⟨h1, h2⟩ := h
    rw [List.isSuffixOf, isPrefixOf_iff_ex] at h1
    obtain ⟨t, ht⟩ := h1
    have hn : n = t.reverse ++ ".mp4".data := by
      have := congrArg List.reverse ht
      simpa using this
    cases htr : t.reverse with
    | nil => rw [hn, htr]; rfl
    | cons c pre =>
      rw [hn, htr] at h2
      rw [pySuffix_cons_append_mp4] at h2
      simp at h2
  · rintro rfl
    decide

theorem mp4Targets_eq_dotmp4 (fs : FS) :
    mp4Targets fs = (fs.map Prod.fst).filter (fun p => p.name.data == ".mp4".data) := by
  unfold mp4Targets
  apply List.filter_congr
  intro p _
  have := mp4_survivor_iff p.name.data
  rw [show rglobMatches ".mp4" p = ".mp4".data.isSuffixOf p.name.data from rfl]
  cases hb : (".mp4".data.isSuffixOf p.name.data && !(pySuffix p.name.data == ".mp4".data)) with
  | true => exact ((beq_iff_eq).mpr (this.mp hb)).symm
  | false =>
    cases hq : (p.name.data == ".mp4".data) with
    | true =>
      exact absurd (this.mpr (beq_iff_eq.mp hq)) (by rw [hb]; simp)
    | false => rfl

/-! ## Helper lemmas on maps and the command builder -/

theorem lookupKey_append_of_none (k : String) (l1 l2 : List (String × String))
    (h : lookupKey k l1 = none) : lookupKey k (l1 ++ l2) = lookupKey k l2 := by
  induction l1 with
  | nil => rfl
  | cons p rest ih =>
    obtain ⟨k1, v⟩ := p
    rw [List.cons_append, lookupKey] at *
    by_cases hk : k1 = k
    · rw [if_pos hk] at h; cases h
    · rw [if_neg hk] at h ⊢; exact ih h

theorem plotExtras_arc_none (doc : XmlDoc) :
    lookupKey "onepace_arc" (plotExtras doc) = none := by
  unfold plotExtras
  cases hf : findTag doc "plot" with
  | none => rfl
  | some el =>
    simp only
    cases htx : el.text with
    | none => rfl
    | some t =>
      simp only
      by_cases ht : t = ""
      · rw [if_pos ht]; rfl
      · rw [if_neg ht]
        cases he : extractOriginalEpisode t.data with
        | none => rfl
        | some v =>
          simp only [lookupKey]
          rw [if_neg (by decide)]

theorem seasonExtras_orig_none (fs : FS) (media : FsPath) :
    lookupKey "original_episode" (seasonExtras fs media) = none := by
  unfold seasonExtras
  simp only
  cases hl : fsLookup fs ⟨media.parent, "season.nfo"⟩ with
  | none => rfl
  | some c =>
    cases c with
    | notXml => rfl
    | xml sdoc =>
      simp only
      cases hf : findTag sdoc "title" with
      | none => rfl
      | some el =>
        simp only
        cases htx : el.text with
        | none => rfl
        | some t =>
          simp only
          by_cases ht : t = ""
          · rw [if_pos ht]; rfl
          · rw [if_neg ht]
            simp only [lookupKey]
            rw [if_neg (by decide)]

theorem countArg_append (x : String) (l1 l2 : List String) :
    countArg x (l1 ++ l2) = countArg x l1 + countArg x l2 := by
  induction l1 with
  | nil => simp [countArg]
  | cons y t ih => rw [List.cons_append, countArg, countArg, ih]; omega

theorem countArg_eq_zero (x : String) (l : List String) (h : x ∉ l) : countArg x l = 0 := by
  induction l with
  | nil => rfl
  | cons y t ih =>
    rw [countArg]
    have hyx : y ≠ x := fun he => h (he ▸ List.mem_cons_self y t)
    rw [if_neg hyx, ih (fun hx => h (List.mem_cons_of_mem _ hx))]

theorem string_data_append (a b : String) : (a ++ b).data = a.data ++ b.data := rfl

theorem metaArg_data (k v : String) :
    (metaArg k v).data = (ffkey k).data ++ '=' :: v.data := by
  show (ffkey k ++ "=" ++ v).data = _
  rw [string_data_append, string_data_append, List.append_assoc]
  rfl

theorem metaArg_has_eqch (k v : String) : '=' ∈ (metaArg k v).data := by
  rw [metaArg_data]
  exact List.mem_append_right _ (List.mem_cons_self _ _)

theorem mem_metaArgs (x : String) (m : List (String × String)) (h : x ∈ metaArgs m) :
    x = "-metadata" ∨ ∃ p ∈ m, x = metaArg p.1 p.2 := by
  induction m with
  | nil => simp [metaArgs] at h
  | cons p t ih =>
    rw [show metaArgs (p :: t) = "-metadata" :: metaArg p.1 p.2 :: metaArgs t from rfl] at h
    rcases List.mem_cons.mp h with h1 | h2
    · exact Or.inl h1
    · rcases List.mem_cons.mp h2 with h3 | h4
      · exact Or.inr ⟨p, List.mem_cons_self _ _, h3⟩
      · rcases ih h4 with h5 | ⟨q, hq, he⟩
        · exact Or.inl h5
        · exact Or.inr ⟨q, List.mem_cons_of_mem _ hq, he⟩

theorem notMem_metaArgs (x : String) (m : List (String × String))
    (h1 : x ≠ "-metadata") (h2 : '=' ∉ x.data) : x ∉ metaArgs m := by
  intro hx
  rcases mem_metaArgs x m hx with h | ⟨p, _, he⟩
  · exact h1 h
  · exact h2 (he ▸ metaArg_has_eqch p.1 p.2)

theorem append_eq_split (a : List Char) :
    ∀ (b v w : List Char), '=' ∉ a → '=' ∉ b →
      a ++ '=' :: v = b ++ '=' :: w → a = b ∧ v = w := by
  induction a with
  | nil =>
    intro b v w _ hb h
    cases b with
    | nil => simpa using h
    | cons c bs =>
      rw [List.nil_append, List.cons_append] at h
      injection h with h1 _
      exact absurd (h1 ▸ List.mem_cons_self c bs) hb
  | cons c as ih =>
    intro b v w ha hb h
    cases b with
    | nil =>
      rw [List.nil_append, List.cons_append] at h
      injection h with h1 _
      exact absurd (h1.symm ▸ List.mem_cons_self c as) ha
    | cons d bs =>
      rw [List.cons_append, List.cons_append] at h
      injection h with h1 h2
      obtain ⟨he, hv⟩ := ih bs v w (fun hm => ha (List.mem_cons_of_mem _ hm))
        (fun hm => hb (List.mem_cons_of_mem _ hm)) h2
      exact ⟨by rw [h1, he], hv⟩

theorem string_data_inj (a b : String) (h : a.data = b.data) : a = b := by
  obtain ⟨la⟩ := a
  obtain ⟨lb⟩ := b
  exact congrArg String.mk h

theorem ffkey_noEqch_of_allowed : ∀ k ∈ allowedMetaKeys, '=' ∉ (ffkey k).data := by decide

theorem ffkey_inj_on_allowed :
    ∀ k1 ∈ allowedMetaKeys, ∀ k2 ∈ allowedMetaKeys, ffkey k1 = ffkey k2 → k1 = k2 := by decide

theorem metaArg_inj (k1 v1 k2 v2 : String) (h1 : k1 ∈ allowedMetaKeys)
    (h2 : k2 ∈ allowedMetaKeys) (h : metaArg k1 v1 = metaArg k2 v2) :
    k1 = k2 ∧ v1 = v2 := by
  have hd : (ffkey k1).data ++ '=' :: v1.data = (ffkey k2).data ++ '=' :: v2.data := by
    have hh := congrArg String.data h
    rw [metaArg_data, metaArg_data] at hh
    exact hh
  obtain ⟨hk, hv⟩ := append_eq_split _ _ _ _ (ffkey_noEqch_of_allowed k1 h1)
    (ffkey_noEqch_of_allowed k2 h2) hd
  exact ⟨ffkey_inj_on_allowed k1 h1 k2 h2 (string_data_inj _ _ hk), string_data_inj _ _ hv⟩

theorem countArg_metaArgs_eq_one (m : List (String × String)) (k v : String)
    (hnd : (m.map Prod.fst).Nodup) (hall : ∀ p ∈ m, p.1 ∈ allowedMetaKeys)
    (hmem : (k, v) ∈ m) : countArg (metaArg k v) (metaArgs m) = 1 := by
  induction m with
  | nil => cases hmem
  | cons p t ih =>
    obtain ⟨k0, v0⟩ := p
    rw [show metaArgs ((k0, v0) :: t) = "-metadata" :: metaArg k0 v0 :: metaArgs t from rfl]
    rw [countArg, countArg]
    have hmd : ("-metadata" : String) ≠ metaArg k v := by
      intro he
      exact absurd (he ▸ metaArg_has_eqch k v) (by decide)
    rw [if_neg hmd]
    have hk0 : k0 ∈ allowedMetaKeys := hall (k0, v0) (List.mem_cons_self _ _)
    have hndt : (t.map Prod.fst).Nodup := (List.nodup_cons.mp hnd).2
    have hk0nt : k0 ∉ t.map Prod.fst := (List.nodup_cons.mp hnd).1
    rcases List.mem_cons.mp hmem with heq | hmem'
    · have hke : k0 = k ∧ v0 = v := by
        have := heq
        rw [Prod.mk.injEq] at this
        exact ⟨this.1.symm, this.2.symm⟩
      obtain ⟨rfl, rfl⟩ := hke
      rw [if_pos rfl]
      have hnot : metaArg k0 v0 ∉ metaArgs t := by
        intro hx
        rcases mem_metaArgs _ _ hx with h | ⟨q, hq, he⟩
        · exact hmd h.symm
        · obtain ⟨hkq, _⟩ := metaArg_inj _ _ _ _ hk0 (hall q (List.mem_cons_of_mem _ hq)) he
          exact hk0nt (hkq ▸ List.mem_map_of_mem Prod.fst hq)
      rw [countArg_eq_zero _ _ hnot]
    · have hkt : k ∈ t.map Prod.fst := by
        have : (k, v).1 ∈ t.map Prod.fst := List.mem_map_of_mem Prod.fst hmem'
        exact this
      have hne : metaArg k0 v0 ≠ metaArg k v := by
        intro he
        obtain ⟨hkq, _⟩ := metaArg_inj _ _ _ _ hk0 (hall (k, v) hmem) he
        exact hk0nt (hkq ▸ hkt)
      rw [if_neg hne, ih hndt (fun q hq => hall q (List.mem_cons_of_mem _ hq)) hmem']

theorem pair_mem_metaArgs (m : List (String × String)) (k v : String)
    (hmem : (k, v) ∈ m) :
    ∃ l1 l2, metaArgs m = l1 ++ ["-metadata", metaArg k v] ++ l2 := by
  induction m with
  | nil => cases hmem
  | cons p t ih =>
    rcases List.mem_cons.mp hmem with heq | hmem'
    · refine ⟨[], metaArgs t, ?_⟩
      rw [show metaArgs (p :: t) = "-metadata" :: metaArg p.1 p.2 :: metaArgs t from rfl]
      rw [Prod.mk.injEq] at heq
      rw [← heq.1, ← heq.2]
      rfl
    · obtain ⟨l1, l2, hl⟩ := ih hmem'
      refine ⟨"-metadata" :: metaArg p.1 p.2 :: l1, l2, ?_⟩
      rw [show metaArgs (p :: t) = "-metadata" :: metaArg p.1 p.2 :: metaArgs t from rfl, hl]
      rfl

/-! ## Helper lemmas on the orchestrator and scanner -/

theorem parseNfoFile_ok_exists (fs : FS) (p : FsPath) (m : List (String × String))
    (h : parseNfoFile fs p = .ok m) : fsExists fs p = true := by
  unfold parseNfoFile at h
  unfold fsExists
  cases hl : fsLookup fs p with
  | none => rw [hl] at h; cases h
  | some c => simp [hl]

theorem runFiles_processed (exitOf : List String → Nat) (r d e : Bool) (l : List FsPath) :
    ∀ fs : FS, (runFiles exitOf r d e l fs).err = none →
      (runFiles exitOf r d e l fs).processed = l := by
  induction l with
  | nil => intro fs _; rfl
  | cons p ps ih =>
    intro fs h
    rw [runFiles] at h ⊢
    cases htc : transcode_file exitOf fs p r d e with
    | error er => rw [htc] at h; simp at h
    | ok out =>
      rw [htc] at h
      simp only at h ⊢
      rw [ih out.fs h]

/-! ## Claim C4 -/

/-- C4: for every well-formed sidecar document, the description parser's
result contains exactly the recognised fields (`title`, `showtitle`,
`season`, `episode`) that are present with nonempty text, each bound to
its literal text value, and no other keys; absent or empty fields are
omitted rather than mapped to an empty string. -/
theorem parse_nfo_characterization (doc : XmlDoc) (k v : String) :
    (k, v) ∈ parse_nfo doc ↔
      k ∈ recognizedTags ∧ ∃ el, findTag doc k = some el ∧ el.text = some v ∧ v ≠ "" := by
  unfold parse_nfo
  rw [List.mem_filterMap]
  constructor
  · rintro ⟨tag, htag, hf⟩
    cases hft : findTag doc tag with
    | none => rw [hft] at hf; cases hf
    | some el =>
      rw [hft] at hf
      simp only at hf
      cases htx : el.text with
      | none => rw [htx] at hf; cases hf
      | some t =>
        rw [htx] at hf
        simp only at hf
        by_cases ht : t = ""
        · rw [if_pos ht] at hf; cases hf
        · rw [if_neg ht] at hf
          injection hf with hp
          rw [Prod.mk.injEq] at hp
          obtain ⟨rfl, rfl⟩ := hp
          exact ⟨htag, el, hft, htx, ht⟩
  · rintro ⟨hk, el, hft, htx, hv⟩
    refine ⟨k, hk, ?_⟩
    rw [hft]
    simp only
    rw [htx]
    simp only
    rw [if_neg hv]

/-! ## Claim C5 -/

/-- C5: when the primary sidecar's content fails to parse, the
supplementary metadata resolver logs a warning and returns an empty
mapping; the parse error is not propagated to the caller. -/
theorem parse_additional_metadata_absorbs (fs : FS) (nfo media : FsPath)
    (h : fsLookup fs nfo = some .notXml) :
    parse_additional_metadata fs nfo media = .ok ([], [.warnBadNfo nfo]) := by
  unfold parse_additional_metadata
  rw [h]

theorem parse_additional_metadata_absorbs_witness :
    parse_additional_metadata [((⟨["root"], "ep.nfo"⟩ : FsPath), .notXml)]
        ⟨["root"], "ep.nfo"⟩ ⟨["root"], "ep.mkv"⟩
      = .ok ([], [.warnBadNfo ⟨["root"], "ep.nfo"⟩]) :=
  parse_additional_metadata_absorbs _ _ _ rfl

/-! ## Claim C3 -/

/-- C3 counterexample: on a season-level sidecar with title
"3. Arlong Park", the resolver stores the arc name under the key
`onepace_arc`; there is no `arc_name` key as the claim states. -/
theorem arc_key_counterexample :
    parse_additional_metadata
        [((⟨["root"], "ep.nfo"⟩ : FsPath), .xml ⟨[]⟩),
         ((⟨["root"], "season.nfo"⟩ : FsPath), .xml ⟨[⟨"title", some "3. Arlong Park"⟩]⟩)]
        ⟨["root"], "ep.nfo"⟩ ⟨["root"], "ep.mkv"⟩
      = .ok ([("onepace_arc", "Arlong Park")], []) ∧
    lookupKey "arc_name" [("onepace_arc", "Arlong Park")] = none :=
  ⟨rfl, rfl⟩

/-- C3 (amended): for every parseable season-level sidecar (`season.nfo`
in the media file's containing directory) with a nonempty title, the
resolver stores the arc under the key `onepace_arc` (not `arc_name`): the
trimmed text after the first `.` when the title contains one, otherwise
the full trimmed title. -/
theorem season_arc_extraction (fs : FS) (nfo media : FsPath) (doc sdoc : XmlDoc)
    (el : XmlElem) (t : String)
    (h1 : fsLookup fs nfo = some (.xml doc))
    (h2 : fsLookup fs ⟨media.parent, "season.nfo"⟩ = some (.xml sdoc))
    (h3 : findTag sdoc "title" = some el)
    (h4 : el.text = some t)
    (h5 : t ≠ "") :
    parse_additional_metadata fs nfo media =
      .ok (plotExtras doc ++ seasonExtras fs media, []) ∧
    lookupKey "onepace_arc" (plotExtras doc ++ seasonExtras fs media) =
      some (String.mk (pyStrip (if t.data.contains '.' then afterFirstDot t.data else t.data))) := by
  constructor
  · unfold parse_additional_metadata
    rw [h1]
  · rw [lookupKey_append_of_none _ _ _ (plotExtras_arc_none doc)]
    unfold seasonExtras
    simp only [h2, h3, h4]
    rw [if_neg h5]
    simp [lookupKey]

theorem season_arc_extraction_witness :
    parse_additional_metadata
        [((⟨["root"], "ep.nfo"⟩ : FsPath), .xml ⟨[]⟩),
         ((⟨["root"], "season.nfo"⟩ : FsPath), .xml ⟨[⟨"title", some "3. Arlong Park"⟩]⟩)]
        ⟨["root"], "ep.nfo"⟩ ⟨["root"], "ep.mkv"⟩
      = .ok (plotExtras ⟨[]⟩ ++
          seasonExtras
            [((⟨["root"], "ep.nfo"⟩ : FsPath), .xml ⟨[]⟩),
             ((⟨["root"], "season.nfo"⟩ : FsPath), .xml ⟨[⟨"title", some "3. Arlong Park"⟩]⟩)]
            ⟨["root"], "ep.mkv"⟩, []) ∧
    lookupKey "onepace_arc"
        (plotExtras ⟨[]⟩ ++
          seasonExtras
            [((⟨["root"], "ep.nfo"⟩ : FsPath), .xml ⟨[]⟩),
             ((⟨["root"], "season.nfo"⟩ : FsPath), .xml ⟨[⟨"title", some "3. Arlong Park"⟩]⟩)]
            ⟨["root"], "ep.mkv"⟩) =
      some (String.mk (pyStrip (if "3. Arlong Park".data.contains '.'
        then afterFirstDot "3. Arlong Park".data else "3. Arlong Park".data))) :=
  season_arc_extraction _ _ _ ⟨[]⟩ _ _ _ rfl rfl rfl rfl (by decide)

/-! ## Claim C6 -/

/-- C6 counterexample: a plot of exactly "Anime Episode(s):7" does not
contain the literal label "Anime Episode(s): " (with the trailing space),
yet the resolver still sets `original_episode` to "7", because the
source's pattern only anchors on "Anime Episode(s):" with *optional*
whitespace before the captured text. -/
theorem original_episode_label_counterexample :
    (¬ ∃ u w, "Anime Episode(s):7".data = u ++ "Anime Episode(s): ".data ++ w) ∧
    lookupKey "original_episode"
      (plotExtras ⟨[⟨"plot", some "Anime Episode(s):7"⟩]⟩) = some "7" := by
  constructor
  · intro h
    have hs := (searchAfter_isSome_iff "Anime Episode(s): ".data "Anime Episode(s):7".data).mpr h
    exact absurd hs (by decide)
  · rfl

/-- C6 (amended): the resolver sets `original_episode` exactly when the
plot text contains the literal label "Anime Episode(s):" (the following
whitespace is optional, not part of the anchor), and the stored value is
the extraction computed by the source's pattern: the remainder of the
first occurrence's line after optional whitespace, trimmed; when the
label is absent the key is omitted. -/
theorem original_episode_extraction (fs : FS) (nfo media : FsPath) (doc : XmlDoc)
    (el : XmlElem) (t : String)
    (h1 : fsLookup fs nfo = some (.xml doc))
    (h2 : findTag doc "plot" = some el)
    (h3 : el.text = some t)
    (h4 : t ≠ "") :
    parse_additional_metadata fs nfo media =
      .ok (plotExtras doc ++ seasonExtras fs media, []) ∧
    lookupKey "original_episode" (plotExtras doc ++ seasonExtras fs media) =
      (extractOriginalEpisode t.data).map String.mk ∧
    ((extractOriginalEpisode t.data).isSome = true ↔
      ∃ u w, t.data = u ++ "Anime Episode(s):".data ++ w) := by
  refine ⟨?_, ?_, ?_⟩
  · unfold parse_additional_metadata
    rw [h1]
  · unfold plotExtras
    simp only [h2, h3]
    rw [if_neg h4]
    cases he : extractOriginalEpisode t.data with
    | none => simpa using seasonExtras_orig_none fs media
    | some v => simp [lookupKey]
  · unfold extractOriginalEpisode
    rw [show animeLabel = "Anime Episode(s):".data from rfl]
    cases hs : searchAfter "Anime Episode(s):".data t.data with
    | none =>
      simp only [Option.isSome_none]
      rw [← searchAfter_isSome_iff, hs]
      simp
    | some r =>
      simp only [Option.isSome_some, true_iff]
      exact (searchAfter_isSome_iff _ _).mp (by rw [hs]; rfl)

theorem original_episode_extraction_witness :
    parse_additional_metadata
        [((⟨["root"], "ep.nfo"⟩ : FsPath), .xml ⟨[⟨"plot", some "Anime Episode(s): 5-6"⟩]⟩)]
        ⟨["root"], "ep.nfo"⟩ ⟨["root"], "ep.mkv"⟩
      = .ok (plotExtras ⟨[⟨"plot", some "Anime Episode(s): 5-6"⟩]⟩ ++
          seasonExtras
            [((⟨["root"], "ep.nfo"⟩ : FsPath), .xml ⟨[⟨"plot", some "Anime Episode(s): 5-6"⟩]⟩)]
            ⟨["root"], "ep.mkv"⟩, []) ∧
    lookupKey "original_episode"
        (plotExtras ⟨[⟨"plot", some "Anime Episode(s): 5-6"⟩]⟩ ++
          seasonExtras
            [((⟨["root"], "ep.nfo"⟩ : FsPath), .xml ⟨[⟨"plot", some "Anime Episode(s): 5-6"⟩]⟩)]
            ⟨["root"], "ep.mkv"⟩) =
      (extractOriginalEpisode "Anime Episode(s): 5-6".data).map String.mk ∧
    ((extractOriginalEpisode "Anime Episode(s): 5-6".data).isSome = true ↔
      ∃ u w, "Anime Episode(s): 5-6".data = u ++ "Anime Episode(s):".data ++ w) :=
  original_episode_extraction _ _ ⟨["root"], "ep.mkv"⟩ _ _ "Anime Episode(s): 5-6"
    rfl rfl rfl (by decide)

/-! ## Claim C7 -/

/-- C7: when artwork is resolved (season "2", embed-artwork enabled, and
`season02-poster.png` present in the media file's grandparent directory)
the built command has exactly two input flags, the stream-mapping flags
selecting both inputs, and the disposition flag marking the second input
as an attached still image; when no artwork is resolved the command has
exactly one input flag and no mapping or disposition flags.  (The
side-conditions only rule out path strings that collide with the literal
flag tokens.) -/
theorem artwork_mapping_invariant (fs : FS) (media : FsPath) (meta : List (String × String))
    (hNi : strPath media ≠ "-i")
    (hOi : strPath (withSuffix media ".mp4") ≠ "-i")
    (hNm : strPath media ≠ "-map")
    (hOm : strPath (withSuffix media ".mp4") ≠ "-map")
    (hNd : strPath media ≠ "-disposition:v:1")
    (hOd : strPath (withSuffix media ".mp4") ≠ "-disposition:v:1") :
    ((media.parent ≠ [] →
      lookupKey "season" meta = some "2" →
      fsExists fs ⟨media.parent.dropLast, "season02-poster.png"⟩ = true →
      strPath (⟨media.parent.dropLast, "season02-poster.png"⟩ : FsPath) ≠ "-i" →
      resolvePoster fs media true meta =
        .ok (some ⟨media.parent.dropLast, "season02-poster.png"⟩) ∧
      countArg "-i" (buildCmd media (some ⟨media.parent.dropLast, "season02-poster.png"⟩)
        meta (withSuffix media ".mp4")) = 2 ∧
      ∃ u w, buildCmd media (some ⟨media.parent.dropLast, "season02-poster.png"⟩)
          meta (withSuffix media ".mp4")
        = u ++ ["-map", "0", "-map", "1", "-disposition:v:1", "attached_pic"] ++ w) ∧
    (∀ embed : Bool, resolvePoster fs media embed meta = .ok none →
      countArg "-i" (buildCmd media none meta (withSuffix media ".mp4")) = 1 ∧
      "-map" ∉ buildCmd media none meta (withSuffix media ".mp4") ∧
      "-disposition:v:1" ∉ buildCmd media none meta (withSuffix media ".mp4"))) := by
  have hIm : countArg "-i" (metaArgs meta) = 0 :=
    countArg_eq_zero _ _ (notMem_metaArgs _ _ (by decide) (by decide))
  have hMapm : "-map" ∉ metaArgs meta := notMem_metaArgs _ _ (by decide) (by decide)
  have hDispm : "-disposition:v:1" ∉ metaArgs meta :=
    notMem_metaArgs _ _ (by decide) (by decide)
  constructor
  · intro hpar h2 h3 hci
    have hpi : pyInt "2" = some 2 := by decide
    have hname : "season" ++ fmt02d 2 ++ "-poster.png" = "season02-poster.png" := by decide
    refine ⟨?_, ?_, ?_⟩
    · unfold resolvePoster
      simp only [h2, hpi]
      cases hpar2 : media.parent with
      | nil => exact absurd hpar2 hpar
      | cons a as =>
        simp only [hname]
        rw [hpar2] at h3
        rw [h3]
        simp
    · simp only [buildCmd, countArg_append]
      simp [countArg, hNi, hOi, hci, hIm]
    · refine ⟨["ffmpeg", "-i", strPath media, "-i",
        strPath (⟨media.parent.dropLast, "season02-poster.png"⟩ : FsPath),
        "-c:v", "libx265", "-c:a", "copy"],
        metaArgs meta ++ [strPath (withSuffix media ".mp4")], ?_⟩
      simp [buildCmd]
  · intro embed _
    refine ⟨?_, ?_, ?_⟩
    · simp only [buildCmd, countArg_append]
      simp [countArg, hNi, hOi, hIm]
    · simp [buildCmd, hMapm, Ne.symm hNm, Ne.symm hOm]
    · simp [buildCmd, hDispm, Ne.symm hNd, Ne.symm hOd]

theorem artwork_mapping_invariant_witness :
    (resolvePoster [((⟨["show"], "season02-poster.png"⟩ : FsPath), .notXml)]
        ⟨["show", "s2"], "ep.mkv"⟩ true [("season", "2")] =
      .ok (some ⟨["show"], "season02-poster.png"⟩) ∧
     countArg "-i" (buildCmd ⟨["show", "s2"], "ep.mkv"⟩ (some ⟨["show"], "season02-poster.png"⟩)
       [("season", "2")] (withSuffix ⟨["show", "s2"], "ep.mkv"⟩ ".mp4")) = 2 ∧
     (∃ u w, buildCmd ⟨["show", "s2"], "ep.mkv"⟩ (some ⟨["show"], "season02-poster.png"⟩)
         [("season", "2")] (withSuffix ⟨["show", "s2"], "ep.mkv"⟩ ".mp4")
       = u ++ ["-map", "0", "-map", "1", "-disposition:v:1", "attached_pic"] ++ w)) ∧
    (countArg "-i" (buildCmd ⟨["show", "s2"], "ep.mkv"⟩ none [("season", "2")]
        (withSuffix ⟨["show", "s2"], "ep.mkv"⟩ ".mp4")) = 1 ∧
     "-map" ∉ buildCmd ⟨["show", "s2"], "ep.mkv"⟩ none [("season", "2")]
        (withSuffix ⟨["show", "s2"], "ep.mkv"⟩ ".mp4") ∧
     "-disposition:v:1" ∉ buildCmd ⟨["show", "s2"], "ep.mkv"⟩ none [("season", "2")]
        (withSuffix ⟨["show", "s2"], "ep.mkv"⟩ ".mp4")) :=
  ⟨(artwork_mapping_invariant [((⟨["show"], "season02-poster.png"⟩ : FsPath), .notXml)]
      ⟨["show", "s2"], "ep.mkv"⟩ [("season", "2")]
      (by decide) (by decide) (by decide) (by decide) (by decide) (by decide)).1
    (by decide) rfl rfl (by decide),
   (artwork_mapping_invariant [] ⟨["show", "s2"], "ep.mkv"⟩ [("season", "2")]
      (by decide) (by decide) (by decide) (by decide) (by decide) (by decide)).2
    false rfl⟩

/-! ## Claim C8 -/

/-- C8: for every key/value entry of the merged metadata map (whose keys
are the script's six possible metadata keys, pairwise distinct), the
built command contains exactly one metadata flag pair for that entry,
with the key translated through the fixed table `showtitle → show`,
`episode → episode_id`, and every other key verbatim (`specRemap` states
that table in the spec's words).  The side-conditions only rule out path
strings containing an `=` character. -/
theorem metadata_remap_per_entry (media : FsPath) (poster : Option FsPath)
    (meta : List (String × String)) (output : FsPath) (k v : String)
    (hnd : (meta.map Prod.fst).Nodup)
    (hall : ∀ p ∈ meta, p.1 ∈ allowedMetaKeys)
    (hm : '=' ∉ (strPath media).data)
    (hp : ∀ q, poster = some q → '=' ∉ (strPath q).data)
    (ho : '=' ∉ (strPath output).data)
    (hmem : (k, v) ∈ meta) :
    countArg (specRemap k ++ "=" ++ v) (buildCmd media poster meta output) = 1 ∧
    ∃ u w, buildCmd media poster meta output =
      u ++ ["-metadata", specRemap k ++ "=" ++ v] ++ w := by
  have hsr : specRemap k ++ "=" ++ v = metaArg k v := rfl
  rw [hsr]
  have hfix1 : countArg (metaArg k v) ["ffmpeg", "-i", strPath media] = 0 := by
    apply countArg_eq_zero
    intro hx
    rcases List.mem_cons.mp hx with h | h
    · exact absurd (h ▸ metaArg_has_eqch k v) (by decide)
    · rcases List.mem_cons.mp h with h' | h'
      · exact absurd (h' ▸ metaArg_has_eqch k v) (by decide)
      · rcases List.mem_cons.mp h' with h'' | h''
        · exact absurd (h'' ▸ metaArg_has_eqch k v) hm
        · cases h''
  have hfix2 : ∀ po : Option FsPath, (∀ q, po = some q → '=' ∉ (strPath q).data) →
      countArg (metaArg k v) (match po with
        | some p => ["-i", strPath p] | none => []) = 0 := by
    intro po hpo
    cases po with
    | none => rfl
    | some q =>
      apply countArg_eq_zero
      intro hx
      rcases List.mem_cons.mp hx with h | h
      · exact absurd (h ▸ metaArg_has_eqch k v) (by decide)
      · rcases List.mem_cons.mp h with h' | h'
        · exact absurd (h' ▸ metaArg_has_eqch k v) (hpo q rfl)
        · cases h'
  have hfix3 : countArg (metaArg k v) ["-c:v", "libx265", "-c:a", "copy"] = 0 := by
    apply countArg_eq_zero
    intro hx
    have := metaArg_has_eqch k v
    rcases List.mem_cons.mp hx with h | h
    · exact absurd (h ▸ this) (by decide)
    · rcases List.mem_cons.mp h with h' | h'
      · exact absurd (h' ▸ this) (by decide)
      · rcases List.mem_cons.mp h' with h'' | h''
        · exact absurd (h'' ▸ this) (by decide)
        · rcases List.mem_cons.mp h'' with h3 | h3
          · exact absurd (h3 ▸ this) (by decide)
          · cases h3
  have hfix4 : ∀ po : Option FsPath, countArg (metaArg k v) (match po with
      | some _ => ["-map", "0", "-map", "1", "-disposition:v:1", "attached_pic"]
      | none => []) = 0 := by
    intro po
    cases po with
    | none => rfl
    | some q =>
      apply countArg_eq_zero
      intro hx
      have hch := metaArg_has_eqch k v
      rcases List.mem_cons.mp hx with h | h
      · exact absurd (h ▸ hch) (by decide)
      · rcases List.mem_cons.mp h with h' | h'
        · exact absurd (h' ▸ hch) (by decide)
        · rcases List.mem_cons.mp h' with h2 | h2
          · exact absurd (h2 ▸ hch) (by decide)
          · rcases List.mem_cons.mp h2 with h3 | h3
            · exact absurd (h3 ▸ hch) (by decide)
            · rcases List.mem_cons.mp h3 with h4 | h4
              · exact absurd (h4 ▸ hch) (by decide)
              · rcases List.mem_cons.mp h4 with h5 | h5
                · exact absurd (h5 ▸ hch) (by decide)
                · cases h5
  have hfix5 : countArg (metaArg k v) [strPath output] = 0 := by
    apply countArg_eq_zero
    intro hx
    rcases List.mem_cons.mp hx with h | h
    · exact absurd (h ▸ metaArg_has_eqch k v) ho
    · cases h
  constructor
  · simp only [buildCmd, countArg_append]
    rw [hfix1, hfix2 poster hp, hfix3, hfix4 poster, hfix5,
      countArg_metaArgs_eq_one meta k v hnd hall hmem]
  · obtain ⟨l1, l2, hl⟩ := pair_mem_metaArgs meta k v hmem
    cases poster with
    | none =>
      refine ⟨["ffmpeg", "-i", strPath media, "-c:v", "libx265", "-c:a", "copy"] ++ l1,
        l2 ++ [strPath output], ?_⟩
      simp [buildCmd, hl]
    | some q =>
      refine ⟨["ffmpeg", "-i", strPath media, "-i", strPath q, "-c:v", "libx265", "-c:a",
        "copy", "-map", "0", "-map", "1", "-disposition:v:1", "attached_pic"] ++ l1,
        l2 ++ [strPath output], ?_⟩
      simp [buildCmd, hl]

theorem metadata_remap_per_entry_witness :
    countArg (specRemap "showtitle" ++ "=" ++ "One Pace")
      (buildCmd ⟨["r"], "ep.mkv"⟩ none [("title", "T"), ("showtitle", "One Pace")]
        ⟨["r"], "ep.mp4"⟩) = 1 ∧
    ∃ u w, buildCmd ⟨["r"], "ep.mkv"⟩ none [("title", "T"), ("showtitle", "One Pace")]
        ⟨["r"], "ep.mp4"⟩ =
      u ++ ["-metadata", specRemap "showtitle" ++ "=" ++ "One Pace"] ++ w :=
  metadata_remap_per_entry ⟨["r"], "ep.mkv"⟩ none
    [("title", "T"), ("showtitle", "One Pace")] ⟨["r"], "ep.mp4"⟩ "showtitle" "One Pace"
    (by decide) (by decide) (by decide) (fun q hq => by cases hq) (by decide) (by decide)

/-! ## Claim C9 -/

/-- C9: whenever the external engine exits with a nonzero code, the
orchestrator logs an error and performs no file replacement: the only
effect is the engine invocation itself (no unlink, no rename, the
filesystem is unchanged), even when the replace flag is set, and the
file's processing terminates normally. -/
theorem engine_failure_preserves_original (exitOf : List String → Nat) (fs : FS)
    (media : FsPath) (replace embed : Bool) (m0 ex : List (String × String))
    (wlog : List LogEntry) (po : Option FsPath)
    (h1 : parseNfoFile fs (withSuffix media ".nfo") = .ok m0)
    (h2 : parse_additional_metadata fs (withSuffix media ".nfo") media = .ok (ex, wlog))
    (h3 : resolvePoster fs media embed (dictUpdate m0 ex) = .ok po)
    (h4 : exitOf (buildCmd media po (dictUpdate m0 ex) (withSuffix media ".mp4")) ≠ 0) :
    transcode_file exitOf fs media replace false embed =
      .ok ⟨wlog ++
            [.infoRunning (buildCmd media po (dictUpdate m0 ex) (withSuffix media ".mp4")),
             .errorFfmpeg media],
           [.exec (buildCmd media po (dictUpdate m0 ex) (withSuffix media ".mp4"))],
           fs⟩ := by
  have hex := parseNfoFile_ok_exists fs _ m0 h1
  unfold transcode_file
  simp only [hex, h1, h2, h3, h4, if_true, if_false, Bool.false_eq_true]

theorem engine_failure_preserves_original_witness :
    transcode_file (fun _ => 1) [((⟨["r"], "ep.nfo"⟩ : FsPath), .xml ⟨[⟨"title", some "T"⟩]⟩)]
        ⟨["r"], "ep.mkv"⟩ true false false =
      .ok ⟨[] ++
            [.infoRunning (buildCmd ⟨["r"], "ep.mkv"⟩ none
              (dictUpdate [("title", "T")] []) (withSuffix ⟨["r"], "ep.mkv"⟩ ".mp4")),
             .errorFfmpeg ⟨["r"], "ep.mkv"⟩],
           [.exec (buildCmd ⟨["r"], "ep.mkv"⟩ none
              (dictUpdate [("title", "T")] []) (withSuffix ⟨["r"], "ep.mkv"⟩ ".mp4"))],
           [((⟨["r"], "ep.nfo"⟩ : FsPath), .xml ⟨[⟨"title", some "T"⟩]⟩)]⟩ :=
  engine_failure_preserves_original (fun _ => 1)
    [((⟨["r"], "ep.nfo"⟩ : FsPath), .xml ⟨[⟨"title", some "T"⟩]⟩)]
    ⟨["r"], "ep.mkv"⟩ true false [("title", "T")] [] [] none rfl rfl rfl (by decide)

/-! ## Claim C10 -/

/-- C10: for a media file whose extension already is the target container
extension `.mp4`, the computed output path equals the input path, and
even on engine success with the replace flag set, the replacement step is
skipped: the orchestrator performs no unlink and no rename, because
replacement requires the input's suffix to differ from `.mp4`. -/
theorem mp4_input_identity_no_replace (exitOf : List String → Nat) (fs : FS)
    (media : FsPath) (replace embed : Bool) (m0 ex : List (String × String))
    (wlog : List LogEntry) (po : Option FsPath)
    (hsuf : pySuffix media.name.data = ".mp4".data)
    (h1 : parseNfoFile fs (withSuffix media ".nfo") = .ok m0)
    (h2 : parse_additional_metadata fs (withSuffix media ".nfo") media = .ok (ex, wlog))
    (h3 : resolvePoster fs media embed (dictUpdate m0 ex) = .ok po)
    (h0 : exitOf (buildCmd media po (dictUpdate m0 ex) (withSuffix media ".mp4")) = 0) :
    withSuffix media ".mp4" = media ∧
    transcode_file exitOf fs media replace false embed =
      .ok ⟨wlog ++
            [.infoRunning (buildCmd media po (dictUpdate m0 ex) (withSuffix media ".mp4"))],
           [.exec (buildCmd media po (dictUpdate m0 ex) (withSuffix media ".mp4"))],
           fsInsert fs (withSuffix media ".mp4") .notXml⟩ := by
  refine ⟨withSuffix_self_of_mp4 media hsuf, ?_⟩
  have hex := parseNfoFile_ok_exists fs _ m0 h1
  unfold transcode_file
  simp only [hex, h1, h2, h3, h0, if_true]
  simp [hsuf]

theorem mp4_input_identity_no_replace_witness :
    withSuffix ⟨["r"], "ep.mp4"⟩ ".mp4" = ⟨["r"], "ep.mp4"⟩ ∧
    transcode_file (fun _ => 0) [((⟨["r"], "ep.nfo"⟩ : FsPath), .xml ⟨[⟨"title", some "T"⟩]⟩)]
        ⟨["r"], "ep.mp4"⟩ true false false =
      .ok ⟨[] ++
            [.infoRunning (buildCmd ⟨["r"], "ep.mp4"⟩ none
              (dictUpdate [("title", "T")] []) (withSuffix ⟨["r"], "ep.mp4"⟩ ".mp4"))],
           [.exec (buildCmd ⟨["r"], "ep.mp4"⟩ none
              (dictUpdate [("title", "T")] []) (withSuffix ⟨["r"], "ep.mp4"⟩ ".mp4"))],
           fsInsert [((⟨["r"], "ep.nfo"⟩ : FsPath), .xml ⟨[⟨"title", some "T"⟩]⟩)]
             (withSuffix ⟨["r"], "ep.mp4"⟩ ".mp4") .notXml⟩ :=
  mp4_input_identity_no_replace (fun _ => 0)
    [((⟨["r"], "ep.nfo"⟩ : FsPath), .xml ⟨[⟨"title", some "T"⟩]⟩)]
    ⟨["r"], "ep.mp4"⟩ true false [("title", "T")] [] [] none (by decide) rfl rfl rfl rfl

/-! ## Claim C1 -/

/-- C1 counterexample: a file `ep.mp4` matches the scanner's second glob
`*.mp4`, yet the scan never hands it to the orchestrator: the second loop
skips every file whose suffix is `.mp4`, so an ordinary `.mp4` file is
never processed (the claim says it is). -/
theorem scan_skips_mp4_counterexample :
    rglobMatches ".mp4" (⟨[], "ep.mp4"⟩ : FsPath) = true ∧
    (scan_directory (fun _ => 0) [((⟨[], "ep.mp4"⟩ : FsPath), .notXml)]
      false true false).processed = [] :=
  ⟨rfl, rfl⟩

/-- C1 (amended): an error-free scan drives the orchestrator over exactly
the files matching `*.mkv`, followed by those files of the post-first-loop
filesystem that match `*.mp4` but whose `pathlib` suffix is not `.mp4` —
which is precisely the files named exactly `.mp4`.  Ordinary
target-container (`.mp4`) files are skipped by the
`if file.suffix == MP4_EXT: continue` guard, not reprocessed. -/
theorem scan_processed_characterization (exitOf : List String → Nat) (fs : FS)
    (replace dry_run embed : Bool)
    (h : (scan_directory exitOf fs replace dry_run embed).err = none) :
    (scan_directory exitOf fs replace dry_run embed).processed =
      mkvTargets fs ++
      ((scanFirst exitOf fs replace dry_run embed).fs.map Prod.fst).filter
        (fun p => p.name.data == ".mp4".data) := by
  unfold scan_directory at h ⊢
  simp only at h ⊢
  cases he : (scanFirst exitOf fs replace dry_run embed).err with
  | some er =>
    rw [he] at h
    simp only at h
    exact absurd (he.symm.trans h) (by simp)
  | none =>
    rw [he] at h
    simp only at h ⊢
    rw [← mp4Targets_eq_dotmp4]
    unfold scanFirst at he h ⊢
    rw [runFiles_processed exitOf replace dry_run embed (mkvTargets fs) fs he,
      runFiles_processed exitOf replace dry_run embed _ _ h]

theorem scan_processed_characterization_witness :
    (scan_directory (fun _ => 0) [((⟨[], "a.mkv"⟩ : FsPath), .notXml)]
      false false false).processed =
      mkvTargets [((⟨[], "a.mkv"⟩ : FsPath), .notXml)] ++
      ((scanFirst (fun _ => 0) [((⟨[], "a.mkv"⟩ : FsPath), .notXml)]
        false false false).fs.map Prod.fst).filter
        (fun p => p.name.data == ".mp4".data) :=
  scan_processed_characterization (fun _ => 0) [((⟨[], "a.mkv"⟩ : FsPath), .notXml)]
    false false false rfl

/-! ## Claim C2 -/

/-- C2 counterexample: with two media files of which the first has a
malformed sidecar, the scan processes only the first file and aborts with
the uncaught ParseError; it does not continue to the remaining file as
the claim states. -/
theorem scan_abort_counterexample :
    (scan_directory (fun _ => 0)
      [((⟨[], "a.mkv"⟩ : FsPath), .notXml), ((⟨[], "a.nfo"⟩ : FsPath), .notXml),
       ((⟨[], "b.mkv"⟩ : FsPath), .notXml),
       ((⟨[], "b.nfo"⟩ : FsPath), .xml ⟨[⟨"title", some "T"⟩]⟩)]
      false true false).err = some .parseError ∧
    (scan_directory (fun _ => 0)
      [((⟨[], "a.mkv"⟩ : FsPath), .notXml), ((⟨[], "a.nfo"⟩ : FsPath), .notXml),
       ((⟨[], "b.mkv"⟩ : FsPath), .notXml),
       ((⟨[], "b.nfo"⟩ : FsPath), .xml ⟨[⟨"title", some "T"⟩]⟩)]
      false true false).processed = [⟨[], "a.mkv"⟩] ∧
    (⟨[], "b.mkv"⟩ : FsPath) ∉ (scan_directory (fun _ => 0)
      [((⟨[], "a.mkv"⟩ : FsPath), .notXml), ((⟨[], "a.nfo"⟩ : FsPath), .notXml),
       ((⟨[], "b.mkv"⟩ : FsPath), .notXml),
       ((⟨[], "b.nfo"⟩ : FsPath), .xml ⟨[⟨"title", some "T"⟩]⟩)]
      false true false).processed := by
  refine ⟨rfl, rfl, ?_⟩
  decide

/-- C2 (amended): when the first file enumerated by the `*.mkv` loop has a
sidecar that is not well-formed markup, the ParseError raised by the
description parser propagates uncaught through the orchestrator and the
scanner: the scan aborts with that error after processing only this file,
and the remaining files are not processed. -/
theorem scan_aborts_on_parse_error (exitOf : List String → Nat) (fs : FS)
    (replace dry_run embed : Bool) (p : FsPath) (ps : List FsPath)
    (h1 : mkvTargets fs = p :: ps)
    (h2 : fsLookup fs (withSuffix p ".nfo") = some .notXml) :
    (scan_directory exitOf fs replace dry_run embed).err = some .parseError ∧
    (scan_directory exitOf fs replace dry_run embed).processed = [p] := by
  have hex : fsExists fs (withSuffix p ".nfo") = true := by
    unfold fsExists
    rw [h2]
    rfl
  have htc : transcode_file exitOf fs p replace dry_run embed = .error .parseError := by
    unfold transcode_file
    rw [if_pos hex]
    unfold parseNfoFile
    rw [h2]
  have hrf : runFiles exitOf replace dry_run embed (mkvTargets fs) fs =
      ⟨fs, [], [], [p], some .parseError⟩ := by
    rw [h1, runFiles, htc]
  unfold scan_directory scanFirst
  rw [hrf]
  exact ⟨rfl, rfl⟩

theorem scan_aborts_on_parse_error_witness :
    (scan_directory (fun _ => 0)
      [((⟨[], "a.mkv"⟩ : FsPath), .notXml), ((⟨[], "a.nfo"⟩ : FsPath), .notXml)]
      true false true).err = some .parseError ∧
    (scan_directory (fun _ => 0)
      [((⟨[], "a.mkv"⟩ : FsPath), .notXml), ((⟨[], "a.nfo"⟩ : FsPath), .notXml)]
      true false true).processed = [⟨[], "a.mkv"⟩] :=
  scan_aborts_on_parse_error (fun _ => 0)
    [((⟨[], "a.mkv"⟩ : FsPath), .notXml), ((⟨[], "a.nfo"⟩ : FsPath), .notXml)]
    true false true ⟨[], "a.mkv"⟩ [] rfl rfl

end OnePace
